import Mathlib

/-!
# Verification of gglang/HelloGo against its specification

The repository is a single Go file (`src/hello.go`) of tutorial snippets.
The specification distills from its concurrency snippets a
"Signal Channel Fan-In Coordinator" (submit / awaitNext / cancel); that
Coordinator is not itself code under `src/`, so it is modelled here from the
spec's words (definitions marked `Modelled from the spec:`).  The remaining
claims are about functions that do exist in `src/hello.go`
(`main`, `recursiveFunction`, `functionWithDefaultError`,
`functionWithCustomError`, `closureReturner`); those are embedded directly
from the source, with Go's 64-bit two's-complement integer arithmetic made
explicit.
-/

namespace HelloGo

/-! ## Go machine integers (64-bit, two's complement, wrapping) -/

/-- Go's `int` on a 64-bit platform: values wrap into `[-2^63, 2^63)`.
Go's arithmetic on signed integers is defined to wrap around
(two's complement), so every arithmetic result is normalised by `wrap64`. -/
def wrap64 (x : Int) : Int := (x + 2 ^ 63) % 2 ^ 64 - 2 ^ 63

theorem wrap64_eq_of_lt {x : Int} (h1 : -2 ^ 63 ≤ x) (h2 : x < 2 ^ 63) :
    wrap64 x = x := by
  unfold wrap64
  rw [Int.emod_eq_of_lt (by omega) (by omega)]
  omega

theorem wrap64_lb (x : Int) : -2 ^ 63 ≤ wrap64 x := by
  have := Int.emod_nonneg (x + 2 ^ 63) (b := 2 ^ 64) (by norm_num)
  unfold wrap64
  omega

theorem wrap64_ub (x : Int) : wrap64 x < 2 ^ 63 := by
  have := Int.emod_lt_of_pos (x + 2 ^ 63) (b := 2 ^ 64) (by norm_num)
  unfold wrap64
  omega

/-- `wrap64` only depends on the residue mod `2^64`. -/
theorem wrap64_congr {x y : Int} (h : x % 2 ^ 64 = y % 2 ^ 64) :
    wrap64 x = wrap64 y := by
  unfold wrap64
  have : (x + 2 ^ 63) % 2 ^ 64 = (y + 2 ^ 63) % 2 ^ 64 := by
    omega
  omega

theorem wrap64_self_emod (x : Int) : wrap64 x % 2 ^ 64 = x % 2 ^ 64 := by
  have h1 := wrap64_lb x
  have h2 := wrap64_ub x
  unfold wrap64 at *
  omega

theorem wrap64_mul_wrap64 (a b : Int) : wrap64 (a * wrap64 b) = wrap64 (a * b) := by
  apply wrap64_congr
  have h := wrap64_self_emod b
  calc a * wrap64 b % 2 ^ 64 = a % 2 ^ 64 * (wrap64 b % 2 ^ 64) % 2 ^ 64 := by
        rw [Int.mul_emod]
    _ = a % 2 ^ 64 * (b % 2 ^ 64) % 2 ^ 64 := by rw [h]
    _ = a * b % 2 ^ 64 := by rw [← Int.mul_emod]

theorem wrap64_add_wrap64 (a b : Int) : wrap64 (wrap64 a + b) = wrap64 (a + b) := by
  apply wrap64_congr
  have h := wrap64_self_emod a
  calc (wrap64 a + b) % 2 ^ 64 = (wrap64 a % 2 ^ 64 + b % 2 ^ 64) % 2 ^ 64 := by
        rw [Int.add_emod]
    _ = (a % 2 ^ 64 + b % 2 ^ 64) % 2 ^ 64 := by rw [h]
    _ = (a + b) % 2 ^ 64 := by rw [← Int.add_emod]

/-! ## The Signal Channel Fan-In Coordinator, modelled from the spec

Modelled from the spec: the Coordinator of spec §4.1 is not code under
`src/`; the source only contains the channel/select snippets
(`testSelect`, `testClosingChannels`, `worker`, ...) it was distilled from.
The model below follows the spec's words: a fixed batch of Tasks, each
producing exactly one Result (payload or failure indicator) after some
amount of work; `awaitNext` consumes Results in completion order subject to
a deadline; `cancel` is advisory.  Time is discrete (`Nat` ticks): each
Task's work takes `duration` ticks from submission (all Tasks are runnable
once submitted, spec §5), so its Result becomes ready at tick `duration`.
The spec leaves the tie-break between simultaneously-ready Tasks arbitrary;
the model breaks ties by submission order. -/

/-- Modelled from the spec: a Task's work produces either a success payload
or a failure indicator ("A Task's internal fault ... must be captured and
reported as a Result carrying a failure indicator", spec §4.1). -/
inductive Outcome where
  | payload (v : Int)
  | failure (e : Int)
  deriving DecidableEq, Repr

/-- Modelled from the spec: a Task is a unit of asynchronous work with an
opaque identifier; `duration` is how many ticks its work runs before it
produces its single Outcome. -/
structure Task where
  tid : Nat
  duration : Nat
  outcome : Outcome
  deriving DecidableEq, Repr

/-- Modelled from the spec: a Result is an immutable value carrying either a
payload or an error indicator, tagged with the originating Task's
identifier (spec §3). -/
structure TResult where
  tid : Nat
  outcome : Outcome
  deriving DecidableEq, Repr

/-- Modelled from the spec: wrapping a finished Task's outcome into the
Result delivered to the caller; a failure is wrapped exactly like a
success (failure-tagged, never thrown). -/
def mkResult (t : Task) : TResult := ⟨t.tid, t.outcome⟩

/-- Modelled from the spec: the Coordinator owns the batch of submitted
Tasks, remembers which Task ids have already had their Result delivered
(`consumed`), whether `awaitNext` has begun draining, whether and when
`cancel` was called, which Tasks were silently abandoned after
cancellation, and the current tick `now`. -/
structure Coordinator where
  tasks : List Task
  consumed : List Nat
  draining : Bool
  cancelledAt : Option Nat
  abandoned : List Nat
  now : Nat
  deriving DecidableEq, Repr

/-- Modelled from the spec: a freshly constructed Coordinator with batch
`ts`, nothing consumed, draining not begun, not cancelled, at tick 0. -/
def mkCoordinator (ts : List Task) : Coordinator :=
  ⟨ts, [], false, none, [], 0⟩

/-- Modelled from the spec: the error taxonomy of spec §7 that `submit`
can surface. -/
inductive SubmitError where
  | alreadyStarted
  deriving DecidableEq, Repr

/-- Modelled from the spec: `submit(task)` registers a Task for concurrent
execution; fails with `AlreadyStarted` if called after `awaitNext` has
begun draining (spec §4.1). -/
def submit (c : Coordinator) (t : Task) : Except SubmitError Coordinator :=
  if c.draining then .error .alreadyStarted
  else .ok { c with tasks := c.tasks ++ [t] }

/-- Modelled from the spec: the Tasks whose Result has not yet been
delivered and that were not abandoned after cancellation. -/
def pendingTasks (c : Coordinator) : List Task :=
  c.tasks.filter fun t => !(c.consumed.contains t.tid) && !(c.abandoned.contains t.tid)

/-- Modelled from the spec: one step of scanning for the pending Task whose
work completes first. -/
def minStep (acc : Option Task) (t : Task) : Option Task :=
  match acc with
  | none => some t
  | some u => if t.duration < u.duration then some t else some u

/-- Modelled from the spec: the pending Task whose work completes first
(completion order); between simultaneously-ready Tasks the tie-break is
arbitrary per the spec, here resolved by submission order. -/
def earliestPending (c : Coordinator) : Option Task :=
  (pendingTasks c).foldl minStep none

/-- Modelled from the spec: what a call to `awaitNext` returns — a Result,
the `Timeout` indicator, or the `Drained` indicator (spec §4.1). -/
inductive AwaitOutcome where
  | result (r : TResult)
  | timedOut
  | drained
  deriving DecidableEq, Repr

/-- Modelled from the spec: `awaitNext(timeoutTicks)` marks draining as
begun, then blocks until (a) some pending Task's Result is ready, returning
the earliest-completing one and advancing `now` to the moment it became
available, (b) the deadline `now + timeoutTicks` passes with no Result
ready, returning `Timeout` at the deadline, or (c) every Task has already
delivered its Result, returning `Drained` immediately (no waiting).  A
consumed Task is removed from the wait set, so its Result can never be
delivered twice.  Abandoned Tasks never deliver, so once only abandoned
Tasks remain each call waits out its deadline and returns `Timeout` rather
than hanging. -/
def awaitNext (c : Coordinator) (timeoutTicks : Nat) : AwaitOutcome × Coordinator :=
  match earliestPending c with
  | none =>
      if c.tasks.all (fun t => c.consumed.contains t.tid) then
        (.drained, { c with draining := true })
      else
        (.timedOut, { c with draining := true, now := c.now + timeoutTicks })
  | some t =>
      if max c.now t.duration ≤ c.now + timeoutTicks then
        (.result (mkResult t),
         { c with draining := true, consumed := t.tid :: c.consumed,
                  now := max c.now t.duration })
      else
        (.timedOut, { c with draining := true, now := c.now + timeoutTicks })

/-- Modelled from the spec: `cancel()` records the cancellation tick and
lets an arbitrary subset (`abandon`, the adversarial choice) of the
not-yet-completed pending Tasks be silently abandoned; Tasks whose work
already finished (Result produced) can not be abandoned, so
already-produced Results remain retrievable (spec §4.1: cancellation is
advisory and a Task may finish before observing it). -/
def cancel (c : Coordinator) (abandon : List Nat) : Coordinator :=
  { c with
    cancelledAt := some c.now
    abandoned := c.abandoned ++
      ((pendingTasks c).filter
        (fun t => decide (c.now < t.duration) && abandon.contains t.tid)).map Task.tid }

/-- Modelled from the spec: calling `awaitNext` repeatedly, collecting the
outcomes of `k` consecutive calls. -/
def runAwait (c : Coordinator) (timeoutTicks : Nat) : Nat → List AwaitOutcome × Coordinator
  | 0 => ([], c)
  | k + 1 =>
      ((awaitNext c timeoutTicks).1 ::
          (runAwait (awaitNext c timeoutTicks).2 timeoutTicks k).1,
       (runAwait (awaitNext c timeoutTicks).2 timeoutTicks k).2)

/-- Modelled from the spec: the Results among a sequence of `awaitNext`
outcomes, in delivery order. -/
def deliveredResults (os : List AwaitOutcome) : List TResult :=
  os.filterMap fun o =>
    match o with
    | .result r => some r
    | _ => none

/-! ## Basic lemmas about the Coordinator model -/

theorem minStep_isSome (acc : Option Task) (t : Task) : (minStep acc t).isSome := by
  cases acc with
  | none => rfl
  | some u =>
      simp only [minStep]
      split <;> rfl

theorem foldl_minStep_isSome :
    ∀ (l : List Task) (acc : Option Task), acc.isSome → (l.foldl minStep acc).isSome := by
  intro l
  induction l with
  | nil => intro acc h; exact h
  | cons x l ih => intro acc _; exact ih (minStep acc x) (minStep_isSome acc x)

theorem foldl_minStep_mem :
    ∀ (l : List Task) (acc : Option Task) (t : Task),
      l.foldl minStep acc = some t → acc = some t ∨ t ∈ l := by
  intro l
  induction l with
  | nil => intro acc t h; exact Or.inl h
  | cons x l ih =>
      intro acc t h
      rcases ih (minStep acc x) t h with h1 | h1
      · cases acc with
        | none =>
            simp only [minStep] at h1
            right
            cases h1
            exact List.mem_cons_self x l
        | some u =>
            simp only [minStep] at h1
            split at h1
            · right
              cases h1
              exact List.mem_cons_self x l
            · left; exact h1
      · right; exact List.mem_cons_of_mem x h1

theorem earliestPending_mem {c : Coordinator} {t : Task}
    (h : earliestPending c = some t) : t ∈ pendingTasks c := by
  rcases foldl_minStep_mem (pendingTasks c) none t h with h1 | h1
  · exact absurd h1 (by simp)
  · exact h1

theorem earliestPending_isSome {c : Coordinator}
    (h : pendingTasks c ≠ []) : (earliestPending c).isSome := by
  unfold earliestPending
  cases hp : pendingTasks c with
  | nil => exact absurd hp h
  | cons x l =>
      simp only [List.foldl_cons]
      exact foldl_minStep_isSome l (minStep none x) (minStep_isSome none x)

theorem earliestPending_eq_none {c : Coordinator}
    (h : pendingTasks c = []) : earliestPending c = none := by
  unfold earliestPending
  rw [h]
  rfl

theorem pendingTasks_mem {c : Coordinator} {t : Task} :
    t ∈ pendingTasks c ↔
      t ∈ c.tasks ∧ ¬t.tid ∈ c.consumed ∧ ¬t.tid ∈ c.abandoned := by
  unfold pendingTasks
  simp [List.mem_filter]

theorem pendingTasks_set_draining (c : Coordinator) (b : Bool) :
    pendingTasks { c with draining := b } = pendingTasks c := rfl

/-- When every submitted Task's id is already in `consumed`, nothing is
pending. -/
theorem pendingTasks_eq_nil_of_all_consumed {c : Coordinator}
    (h : ∀ t ∈ c.tasks, t.tid ∈ c.consumed) : pendingTasks c = [] := by
  unfold pendingTasks
  rw [List.filter_eq_nil_iff]
  intro t ht
  have := h t ht
  simp [this]

/-- Conversely, with no abandoned Tasks, an empty pending set means every
Task's Result has been delivered. -/
theorem all_consumed_of_pendingTasks_eq_nil {c : Coordinator}
    (hab : c.abandoned = []) (h : pendingTasks c = []) :
    ∀ t ∈ c.tasks, t.tid ∈ c.consumed := by
  intro t ht
  unfold pendingTasks at h
  rw [List.filter_eq_nil_iff] at h
  have := h t ht
  rw [hab] at this
  simpa using this

/-! ## Claim C4: `awaitNext` on a drained Coordinator -/

/-- C4: For a Coordinator constructed with zero submitted Tasks, the first
call to `awaitNext` returns the `Drained` indicator immediately (the clock
does not advance to the deadline); in general, whenever every submitted
Task's Result has already been delivered, `awaitNext` returns `Drained`
immediately. -/
theorem awaitNext_drained_when_all_delivered (c : Coordinator) (timeoutTicks : Nat)
    (h : ∀ t ∈ c.tasks, t.tid ∈ c.consumed) :
    (awaitNext c timeoutTicks).1 = .drained ∧
      (awaitNext c timeoutTicks).2.now = c.now ∧
      (awaitNext (mkCoordinator []) timeoutTicks).1 = .drained ∧
      (awaitNext (mkCoordinator []) timeoutTicks).2.now = 0 := by
  refine ⟨?_, ?_, rfl, rfl⟩ <;>
  · unfold awaitNext
    rw [earliestPending_eq_none (pendingTasks_eq_nil_of_all_consumed h)]
    have hall : c.tasks.all (fun t => c.consumed.contains t.tid) = true := by
      rw [List.all_eq_true]
      intro t ht
      exact List.elem_iff.mpr (h t ht)
    rw [if_pos hall]

/-- Witness for C4 on concrete input: a Coordinator with two already
delivered Tasks and the empty Coordinator. -/
theorem awaitNext_drained_when_all_delivered_witness :
    (awaitNext ⟨[⟨1, 5, .payload 10⟩, ⟨2, 7, .payload 20⟩], [2, 1], true, none, [], 9⟩ 100).1
        = .drained ∧
      (awaitNext ⟨[⟨1, 5, .payload 10⟩, ⟨2, 7, .payload 20⟩], [2, 1], true, none, [], 9⟩ 100).2.now
        = 9 := by
  have h := awaitNext_drained_when_all_delivered
    ⟨[⟨1, 5, .payload 10⟩, ⟨2, 7, .payload 20⟩], [2, 1], true, none, [], 9⟩ 100
    (by decide)
  exact ⟨h.1, h.2.1⟩

/-! ## Claim C5: the `submit` contract -/

/-- C5: `submit` called after `awaitNext` has begun draining fails with
`AlreadyStarted`; called before draining begins it registers the Task in
the batch (appending it to the concurrently running set), and if the
Task's id is fresh the Task immediately counts as pending, i.e. its work
is scheduled alongside all other submitted Tasks. -/
theorem submit_contract (c : Coordinator) (t : Task) :
    (c.draining = true → submit c t = .error .alreadyStarted) ∧
      (c.draining = false →
        submit c t = .ok { c with tasks := c.tasks ++ [t] } ∧
          t ∈ ({ c with tasks := c.tasks ++ [t] } : Coordinator).tasks ∧
          (¬t.tid ∈ c.consumed → ¬t.tid ∈ c.abandoned →
            t ∈ pendingTasks { c with tasks := c.tasks ++ [t] })) := by
  constructor
  · intro h
    unfold submit
    rw [h]
    rfl
  · intro h
    refine ⟨?_, ?_, ?_⟩
    · unfold submit
      rw [h]
      rfl
    · simp
    · intro h1 h2
      rw [pendingTasks_mem]
      exact ⟨by simp, h1, h2⟩

/-- Witness for C5 on concrete input: submitting to a draining Coordinator
fails, submitting to a fresh Coordinator registers the Task as pending. -/
theorem submit_contract_witness :
    submit ⟨[], [], true, none, [], 0⟩ ⟨1, 2, .payload 3⟩ = .error .alreadyStarted ∧
      (⟨1, 2, .payload 3⟩ : Task) ∈
        pendingTasks { mkCoordinator [] with tasks := [] ++ [⟨1, 2, .payload 3⟩] } := by
  constructor
  · exact (submit_contract ⟨[], [], true, none, [], 0⟩ ⟨1, 2, .payload 3⟩).1 rfl
  · exact ((submit_contract (mkCoordinator []) ⟨1, 2, .payload 3⟩).2 rfl).2.2
      (by simp [mkCoordinator]) (by simp [mkCoordinator])

/-- Unfolding equation for `awaitNext` when some Task is pending. -/
theorem awaitNext_eq_some {c : Coordinator} {t : Task}
    (hep : earliestPending c = some t) (timeoutTicks : Nat) :
    awaitNext c timeoutTicks =
      if max c.now t.duration ≤ c.now + timeoutTicks then
        (.result (mkResult t),
         { c with draining := true, consumed := t.tid :: c.consumed,
                  now := max c.now t.duration })
      else
        (.timedOut, { c with draining := true, now := c.now + timeoutTicks }) := by
  unfold awaitNext
  rw [hep]

/-- Unfolding equation for `awaitNext` when no Task is pending. -/
theorem awaitNext_eq_none {c : Coordinator}
    (hep : earliestPending c = none) (timeoutTicks : Nat) :
    awaitNext c timeoutTicks =
      if c.tasks.all (fun t => c.consumed.contains t.tid) then
        (.drained, { c with draining := true })
      else
        (.timedOut, { c with draining := true, now := c.now + timeoutTicks }) := by
  unfold awaitNext
  rw [hep]

/-- `awaitNext` always hands control back no later than the deadline: the
clock after any call advances at most `timeoutTicks` past the call tick. -/
theorem awaitNext_now_le (c : Coordinator) (timeoutTicks : Nat) :
    (awaitNext c timeoutTicks).2.now ≤ c.now + timeoutTicks := by
  cases hep : earliestPending c with
  | none =>
      rw [awaitNext_eq_none hep]
      by_cases hall : (c.tasks.all fun t => c.consumed.contains t.tid) = true
      · rw [if_pos hall]
        exact Nat.le_add_right _ _
      · rw [if_neg hall]
  | some t =>
      rw [awaitNext_eq_some hep]
      by_cases hle : max c.now t.duration ≤ c.now + timeoutTicks
      · rw [if_pos hle]
        exact hle
      · rw [if_neg hle]

/-! ## Claim C2: `awaitNext` timeout behaviour -/

/-- C2: `awaitNext` never blocks past its deadline (the clock advances by
at most the timeout), and if some submitted Task is still pending but none
of the pending Tasks' Results becomes ready by the deadline, `awaitNext`
returns the `Timeout` indicator exactly at the deadline while leaving the
Task batch, the delivered set and the abandoned set untouched — sibling
Tasks are not aborted. -/
theorem awaitNext_timeout_contract (c : Coordinator) (timeoutTicks : Nat) :
    (awaitNext c timeoutTicks).2.now ≤ c.now + timeoutTicks ∧
      (pendingTasks c ≠ [] →
        (∀ t ∈ pendingTasks c, c.now + timeoutTicks < t.duration) →
        awaitNext c timeoutTicks =
          (.timedOut, { c with draining := true, now := c.now + timeoutTicks })) := by
  refine ⟨awaitNext_now_le c timeoutTicks, ?_⟩
  intro hne hfar
  cases hep : earliestPending c with
  | none =>
      have := earliestPending_isSome hne
      rw [hep] at this
      exact absurd this (by simp)
  | some t =>
      have hmem := earliestPending_mem hep
      have hgt := hfar t hmem
      rw [awaitNext_eq_some hep,
        if_neg (fun hcon => absurd (Nat.max_le.mp hcon).2 (by omega))]

/-- Witness for C2 on concrete input: one pending Task needing 100 ticks,
deadline 5 ticks away. -/
theorem awaitNext_timeout_contract_witness :
    awaitNext ⟨[⟨7, 100, .payload 1⟩], [], false, none, [], 0⟩ 5 =
      (.timedOut, ⟨[⟨7, 100, .payload 1⟩], [], true, none, [], 5⟩) :=
  (awaitNext_timeout_contract ⟨[⟨7, 100, .payload 1⟩], [], false, none, [], 0⟩ 5).2
    (by decide) (by decide)

/-! ## Claim C3: Task failures are wrapped into Results -/

/-- C3: a Task whose work fails internally never surfaces as a Coordinator
fault: `awaitNext` (a total function of the model — there is no crash
state) delivers the failure wrapped as a failure-tagged Result through the
exact same path as a success, tagging it with the Task's id and marking
the Task consumed so that it still reports exactly once. -/
theorem task_failure_wrapped_into_result (c : Coordinator) (timeoutTicks : Nat)
    (t : Task) (e : Int)
    (hep : earliestPending c = some t)
    (hfail : t.outcome = .failure e)
    (hready : t.duration ≤ c.now + timeoutTicks) :
    (awaitNext c timeoutTicks).1 = .result ⟨t.tid, .failure e⟩ ∧
      (awaitNext c timeoutTicks).2.consumed = t.tid :: c.consumed := by
  rw [awaitNext_eq_some hep,
    if_pos (max_le (Nat.le_add_right c.now timeoutTicks) hready)]
  unfold mkResult
  rw [hfail]
  exact ⟨rfl, rfl⟩

/-- Witness for C3 on concrete input: a single Task that fails after 3
ticks is delivered as a failure-tagged Result. -/
theorem task_failure_wrapped_into_result_witness :
    (awaitNext ⟨[⟨4, 3, .failure 99⟩], [], false, none, [], 0⟩ 10).1 =
        .result ⟨4, .failure 99⟩ ∧
      (awaitNext ⟨[⟨4, 3, .failure 99⟩], [], false, none, [], 0⟩ 10).2.consumed = [4] :=
  task_failure_wrapped_into_result ⟨[⟨4, 3, .failure 99⟩], [], false, none, [], 0⟩ 10
    ⟨4, 3, .failure 99⟩ 99 (by decide) (by decide) (by decide)

/-! ## Claim C6: the `cancel` contract -/

/-- C6: cancelling after K of N Results have been delivered keeps the
delivered set, the Task batch and the clock intact; a pending Task whose
work already finished can not be abandoned (its already-produced Result
stays retrievable); every remaining Task either stays pending (and may
deliver a late Result) or is silently abandoned; and `awaitNext` after the
cancellation still hands control back no later than its deadline — it
neither crashes (the model is a total function) nor hangs. -/
theorem cancel_contract (c : Coordinator) (abandon : List Nat) (timeoutTicks : Nat)
    (hnodup : (c.tasks.map Task.tid).Nodup) :
    (cancel c abandon).consumed = c.consumed ∧
      (cancel c abandon).tasks = c.tasks ∧
      (cancel c abandon).now = c.now ∧
      (∀ t ∈ pendingTasks c, t.duration ≤ c.now →
        t ∈ pendingTasks (cancel c abandon)) ∧
      (∀ t ∈ pendingTasks c,
        t ∈ pendingTasks (cancel c abandon) ∨ t.tid ∈ (cancel c abandon).abandoned) ∧
      (awaitNext (cancel c abandon) timeoutTicks).2.now ≤ c.now + timeoutTicks := by
  refine ⟨rfl, rfl, rfl, ?_, ?_, awaitNext_now_le _ _⟩
  · intro t ht hdone
    obtain ⟨htask, hcons, hab⟩ := pendingTasks_mem.mp ht
    rw [pendingTasks_mem]
    refine ⟨htask, hcons, ?_⟩
    unfold cancel
    simp only [List.mem_append]
    rintro (h1 | h2)
    · exact hab h1
    · obtain ⟨u, hu, hutid⟩ := List.mem_map.mp h2
      obtain ⟨hu1, hu2⟩ := List.mem_filter.mp hu
      have hdur : c.now < u.duration :=
        of_decide_eq_true ((Bool.and_eq_true _ _).mp hu2).1
      have hut : u = t :=
        List.inj_on_of_nodup_map hnodup (pendingTasks_mem.mp hu1).1 htask hutid
      rw [hut] at hdur
      omega
  · intro t ht
    by_cases h : t.tid ∈ (cancel c abandon).abandoned
    · exact Or.inr h
    · left
      obtain ⟨htask, hcons, _⟩ := pendingTasks_mem.mp ht
      exact pendingTasks_mem.mpr ⟨htask, hcons, h⟩

/-- Witness for C6 on concrete input: three Tasks, one Result already
delivered, cancel requests abandoning Tasks 2 and 3; Task 2 (already
finished) stays retrievable, and `awaitNext` still meets its deadline. -/
theorem cancel_contract_witness :
    (cancel ⟨[⟨1, 2, .payload 7⟩, ⟨2, 5, .payload 8⟩, ⟨3, 50, .payload 9⟩],
        [1], true, none, [], 10⟩ [2, 3]).consumed = [1] ∧
      (⟨2, 5, .payload 8⟩ : Task) ∈
        pendingTasks (cancel ⟨[⟨1, 2, .payload 7⟩, ⟨2, 5, .payload 8⟩, ⟨3, 50, .payload 9⟩],
          [1], true, none, [], 10⟩ [2, 3]) ∧
      (awaitNext (cancel ⟨[⟨1, 2, .payload 7⟩, ⟨2, 5, .payload 8⟩, ⟨3, 50, .payload 9⟩],
          [1], true, none, [], 10⟩ [2, 3]) 7).2.now ≤ 10 + 7 := by
  have h := cancel_contract
    ⟨[⟨1, 2, .payload 7⟩, ⟨2, 5, .payload 8⟩, ⟨3, 50, .payload 9⟩], [1], true, none, [], 10⟩
    [2, 3] 7 (by decide)
  exact ⟨h.1, h.2.2.2.1 ⟨2, 5, .payload 8⟩ (by decide) (by decide), h.2.2.2.2.2⟩

/-! ## Claim C1: exactly-once delivery of every Result -/

/-- Consuming a Task id removes exactly the Tasks bearing that id from the
pending set; nothing else changes. -/
theorem pendingTasks_consume (c : Coordinator) (x : Nat) (b : Bool) (m : Nat) :
    pendingTasks { c with draining := b, consumed := x :: c.consumed, now := m } =
      (pendingTasks c).filter (fun u => u.tid != x) := by
  unfold pendingTasks
  rw [List.filter_filter]
  apply List.filter_congr
  intro u _
  rw [Bool.eq_iff_iff]
  simp [List.mem_cons, not_or, and_assoc]

theorem map_tid_filter (l : List Task) (x : Nat) :
    ((l.filter fun u => u.tid != x).map Task.tid)
      = (l.map Task.tid).filter (fun y => y != x) := by
  induction l with
  | nil => rfl
  | cons a l ih =>
      simp only [List.map_cons, List.filter_cons]
      cases h : (a.tid != x) <;> simp [h, ih]

theorem cons_filter_ne_perm {L : List Nat} {x : Nat} (hnd : L.Nodup) (hx : x ∈ L) :
    (x :: L.filter (fun y => y != x)).Perm L := by
  rw [← hnd.erase_eq_filter x]
  exact (List.perm_cons_erase hx).symm

/-- Draining invariant: starting from any Coordinator with no abandoned
Tasks, distinct pending ids and a deadline generous enough for every
pending Task, `n` pending Tasks are delivered by exactly `n` calls to
`awaitNext` — one fresh Result per call, ids a permutation of the pending
ids — and the `n+1`-st call returns `Drained`. -/
theorem drain_general :
    ∀ (n : Nat) (c : Coordinator) (timeoutTicks : Nat),
      (pendingTasks c).length = n →
      c.abandoned = [] →
      ((pendingTasks c).map Task.tid).Nodup →
      (∀ t ∈ pendingTasks c, t.duration ≤ timeoutTicks) →
      ∃ rs : List TResult,
        (runAwait c timeoutTicks (n + 1)).1
            = rs.map AwaitOutcome.result ++ [AwaitOutcome.drained] ∧
          (rs.map TResult.tid).Perm ((pendingTasks c).map Task.tid) := by
  intro n
  induction n with
  | zero =>
      intro c timeoutTicks hlen hab _ _
      have hpend : pendingTasks c = [] := List.length_eq_zero.mp hlen
      have hdr : awaitNext c timeoutTicks = (.drained, { c with draining := true }) := by
        rw [awaitNext_eq_none (earliestPending_eq_none hpend)]
        rw [if_pos ?_]
        rw [List.all_eq_true]
        intro t ht
        exact List.elem_iff.mpr (all_consumed_of_pendingTasks_eq_nil hab hpend t ht)
      refine ⟨[], ?_, ?_⟩
      · show ((awaitNext c timeoutTicks).1 ::
            (runAwait (awaitNext c timeoutTicks).2 timeoutTicks 0).1, _).1 = _
        rw [hdr]
        rfl
      · rw [hpend]
        rfl
  | succ n ih =>
      intro c timeoutTicks hlen hab hnd hdur
      have hne : pendingTasks c ≠ [] := by
        intro h
        rw [h] at hlen
        exact absurd hlen (by simp)
      obtain ⟨t, hep⟩ := Option.isSome_iff_exists.mp (earliestPending_isSome hne)
      have hmem := earliestPending_mem hep
      have hdurt := hdur t hmem
      have hcond : max c.now t.duration ≤ c.now + timeoutTicks :=
        max_le (Nat.le_add_right _ _) (le_trans hdurt (Nat.le_add_left _ _))
      have hawait : awaitNext c timeoutTicks =
          (.result (mkResult t),
           { c with draining := true, consumed := t.tid :: c.consumed,
                    now := max c.now t.duration }) := by
        rw [awaitNext_eq_some hep, if_pos hcond]
      have hpend2 : pendingTasks
          ({ c with draining := true, consumed := t.tid :: c.consumed,
                    now := max c.now t.duration } : Coordinator)
            = (pendingTasks c).filter (fun u => u.tid != t.tid) :=
        pendingTasks_consume c t.tid true (max c.now t.duration)
      have hperm : (t.tid :: ((pendingTasks c).filter
            (fun u => u.tid != t.tid)).map Task.tid).Perm
          ((pendingTasks c).map Task.tid) := by
        rw [map_tid_filter]
        exact cons_filter_ne_perm hnd (List.mem_map_of_mem Task.tid hmem)
      have hlen2 : (pendingTasks
          ({ c with draining := true, consumed := t.tid :: c.consumed,
                    now := max c.now t.duration } : Coordinator)).length = n := by
        rw [hpend2]
        have h1 := hperm.length_eq
        simp only [List.length_cons, List.length_map] at h1
        omega
      have hnd2 : ((pendingTasks
          ({ c with draining := true, consumed := t.tid :: c.consumed,
                    now := max c.now t.duration } : Coordinator)).map Task.tid).Nodup := by
        rw [hpend2, map_tid_filter]
        exact (List.filter_sublist _).nodup hnd
      have hdur2 : ∀ u ∈ pendingTasks
          ({ c with draining := true, consumed := t.tid :: c.consumed,
                    now := max c.now t.duration } : Coordinator),
          u.duration ≤ timeoutTicks := by
        intro u hu
        rw [hpend2] at hu
        exact hdur u (List.mem_of_mem_filter hu)
      obtain ⟨rs2, hrs2, hperm2⟩ := ih _ timeoutTicks hlen2 hab hnd2 hdur2
      refine ⟨mkResult t :: rs2, ?_, ?_⟩
      · show ((awaitNext c timeoutTicks).1 ::
            (runAwait (awaitNext c timeoutTicks).2 timeoutTicks (n + 1)).1, _).1 = _
        rw [hawait]
        show AwaitOutcome.result (mkResult t) ::
            (runAwait _ timeoutTicks (n + 1)).1 = _
        rw [hrs2]
        rfl
      · show (t.tid :: rs2.map TResult.tid).Perm _
        refine List.Perm.trans (List.Perm.cons t.tid ?_) hperm
        rw [hpend2] at hperm2
        exact hperm2

/-- The delivered Results of a run that produces Results then `Drained`. -/
theorem deliveredResults_map_result (rs : List TResult) :
    deliveredResults (rs.map AwaitOutcome.result ++ [AwaitOutcome.drained]) = rs := by
  induction rs with
  | nil => rfl
  | cons r rs ih =>
      simp only [List.map_cons, List.cons_append]
      show r :: deliveredResults (rs.map AwaitOutcome.result ++ [AwaitOutcome.drained])
          = r :: rs
      rw [ih]

/-- C1: submitting a batch of `N` Tasks with distinct ids and draining with
a deadline generous enough for every Task, the first `N` calls to
`awaitNext` each return a Result and the `N+1`-st returns `Drained`; the
delivered Results number exactly `N`, their Task ids are a permutation of
the submitted Task ids, and no id appears twice — no Result is lost or
duplicated, and no Task's Result is delivered more than once. -/
theorem coordinator_exactly_once_delivery (ts : List Task) (timeoutTicks : Nat)
    (hnd : (ts.map Task.tid).Nodup)
    (hdur : ∀ t ∈ ts, t.duration ≤ timeoutTicks) :
    (runAwait (mkCoordinator ts) timeoutTicks (ts.length + 1)).1
        = (deliveredResults
            (runAwait (mkCoordinator ts) timeoutTicks (ts.length + 1)).1).map
            AwaitOutcome.result ++ [AwaitOutcome.drained] ∧
      (deliveredResults
          (runAwait (mkCoordinator ts) timeoutTicks (ts.length + 1)).1).length
        = ts.length ∧
      ((deliveredResults
          (runAwait (mkCoordinator ts) timeoutTicks (ts.length + 1)).1).map
          TResult.tid).Perm (ts.map Task.tid) ∧
      ((deliveredResults
          (runAwait (mkCoordinator ts) timeoutTicks (ts.length + 1)).1).map
          TResult.tid).Nodup := by
  have hpend : pendingTasks (mkCoordinator ts) = ts :=
    List.filter_eq_self.mpr (fun a _ => rfl)
  obtain ⟨rs, hrs, hp⟩ := drain_general ts.length (mkCoordinator ts) timeoutTicks
    (by rw [hpend]) rfl (by rw [hpend]; exact hnd) (by rw [hpend]; exact hdur)
  rw [hpend] at hp
  have hdel : deliveredResults
      (runAwait (mkCoordinator ts) timeoutTicks (ts.length + 1)).1 = rs := by
    rw [hrs]
    exact deliveredResults_map_result rs
  refine ⟨?_, ?_, ?_, ?_⟩
  · rw [hdel, hrs]
  · rw [hdel]
    have := hp.length_eq
    simpa using this
  · rw [hdel]
    exact hp
  · rw [hdel]
    exact hp.nodup_iff.mpr hnd

/-- Witness for C1 on concrete input: two Tasks (ids 1 and 2, durations 3
and 1) drained with deadline 5: two Results then `Drained`, ids delivered
exactly once. -/
theorem coordinator_exactly_once_delivery_witness :
    (runAwait (mkCoordinator [⟨1, 3, .payload 10⟩, ⟨2, 1, .payload 20⟩]) 5 3).1
        = (deliveredResults
            (runAwait (mkCoordinator [⟨1, 3, .payload 10⟩, ⟨2, 1, .payload 20⟩]) 5 3).1).map
            AwaitOutcome.result ++ [AwaitOutcome.drained] ∧
      (deliveredResults
          (runAwait (mkCoordinator [⟨1, 3, .payload 10⟩, ⟨2, 1, .payload 20⟩]) 5 3).1).length
        = 2 ∧
      ((deliveredResults
          (runAwait (mkCoordinator [⟨1, 3, .payload 10⟩, ⟨2, 1, .payload 20⟩]) 5 3).1).map
          TResult.tid).Perm [1, 2] ∧
      ((deliveredResults
          (runAwait (mkCoordinator [⟨1, 3, .payload 10⟩, ⟨2, 1, .payload 20⟩]) 5 3).1).map
          TResult.tid).Nodup :=
  coordinator_exactly_once_delivery [⟨1, 3, .payload 10⟩, ⟨2, 1, .payload 20⟩] 5
    (by decide) (by decide)

/-! ## Claim C7: `main` and the call graph of `src/hello.go`

These definitions are taken directly from the source: `GoFunc` lists every
top-level function declared in `src/hello.go`, `calls` records which other
top-level functions each one's body invokes (library calls such as
`fmt.Println` and methods on struct types are not top-level functions of
the file), and `mainOutput` is the text `main` writes
(`fmt.Printf("hello, world\n")`). -/

inductive GoFunc where
  | main
  | doSomeLoopingAndConditionals
  | arraysAndSlices
  | maps
  | ranges
  | addStuff
  | moreAdding
  | multipleReturns
  | testMultipleReturns
  | variadicFunctionForSumming
  | testVariadicFunction
  | closureReturner
  | closureTester
  | recursiveFunction
  | takesVal
  | takesPtr
  | testPointers
  | NewPersonConstructor
  | testStructs
  | testMethodStruct
  | testInteraface
  | measure
  | functionWithDefaultError
  | functionWithCustomError
  | testErrors
  | somethingToRun
  | testGoRoutines
  | testChannels
  | worker
  | testSyncWithWorker
  | ping
  | pong
  | testChannelDirections
  | testSelect
  | testNonBlockingChannelsWithSelect
  | testClosingChannels
  | showRangeWithChannels
  | showPanic
  | testFinally
  | createFile
  | writeFile
  | closeFile
  deriving DecidableEq, Repr

/-- Direct calls from each top-level function of `src/hello.go` to other
top-level functions of the file, read off the source bodies. -/
def calls : GoFunc → List GoFunc
  | .testMultipleReturns => [.multipleReturns]
  | .testVariadicFunction => [.variadicFunctionForSumming]
  | .closureTester => [.closureReturner]
  | .recursiveFunction => [.recursiveFunction]
  | .testPointers => [.takesVal, .takesPtr]
  | .testStructs => [.NewPersonConstructor]
  | .testInteraface => [.measure]
  | .testErrors => [.functionWithDefaultError, .functionWithCustomError]
  | .testGoRoutines => [.somethingToRun]
  | .testSyncWithWorker => [.worker]
  | .testChannelDirections => [.ping, .pong]
  | .testFinally => [.createFile, .closeFile, .writeFile]
  | _ => []

/-- The text `main`'s body prints: `fmt.Printf("hello, world\n")`. -/
def mainOutput : String := "hello, world\n"

/-- Reachability along the call graph: `ReachesFrom f g` holds when `g` is
`f` itself or is called (transitively) from `f`'s body. -/
inductive ReachesFrom : GoFunc → GoFunc → Prop where
  | refl (f : GoFunc) : ReachesFrom f f
  | step {f g h : GoFunc} : ReachesFrom f g → h ∈ calls g → ReachesFrom f h

/-- C7: `main` prints exactly `"hello, world\n"`, its body calls no other
top-level function of the file, and consequently every top-level function
reachable from `main` is `main` itself — all the demo functions are dead
code with respect to the production entry point. -/
theorem main_reaches_only_itself (f : GoFunc) (h : ReachesFrom GoFunc.main f) :
    f = GoFunc.main ∧ mainOutput = "hello, world\n" ∧ calls GoFunc.main = [] := by
  refine ⟨?_, rfl, rfl⟩
  induction h with
  | refl => rfl
  | step _ hmem ihg =>
      rw [ihg] at hmem
      exact absurd hmem (by simp [calls])

/-- Witness for C7: the reachable set from `main` contains `main`
(reflexivity), and the theorem applies to it. -/
theorem main_reaches_only_itself_witness :
    GoFunc.main = GoFunc.main ∧ mainOutput = "hello, world\n" ∧
      calls GoFunc.main = [] :=
  main_reaches_only_itself GoFunc.main (ReachesFrom.refl GoFunc.main)

/-! ## Claim C8: `recursiveFunction` and the factorial

Embedded from the source with Go's 64-bit wrapping arithmetic:

```go
func recursiveFunction(n int) int {
    if n == 0 {
        return 1
    }
    return n * recursiveFunction(n-1)
}
```

The unbounded Go recursion is modelled with explicit fuel: `none` means
"the recursion did not reach the base case within `fuel` calls". -/

def recursiveFunction : Nat → Int → Option Int
  | 0, _ => none
  | fuel + 1, n =>
      if n = 0 then some 1
      else
        match recursiveFunction fuel (wrap64 (n - 1)) with
        | some r => some (wrap64 (n * r))
        | none => none

/-- On naturals below `2^63`, `recursiveFunction` computes the factorial
wrapped to int64. -/
theorem recursiveFunction_eq_wrapped_factorial :
    ∀ (m : Nat), m < 2 ^ 63 → ∀ fuel : Nat, m < fuel →
      recursiveFunction fuel (m : Int) = some (wrap64 (Nat.factorial m)) := by
  intro m
  induction m with
  | zero =>
      intro _ fuel hfuel
      obtain ⟨f, rfl⟩ := Nat.exists_eq_succ_of_ne_zero (Nat.pos_iff_ne_zero.mp hfuel)
      show recursiveFunction (f + 1) ((0 : Nat) : Int) = _
      unfold recursiveFunction
      rw [if_pos (by norm_num)]
      rw [show wrap64 (Nat.factorial 0) = 1 from by decide]
  | succ k ih =>
      intro hm fuel hfuel
      obtain ⟨f, rfl⟩ := Nat.exists_eq_succ_of_ne_zero (Nat.pos_iff_ne_zero.mp
        (Nat.lt_of_le_of_lt (Nat.zero_le _) hfuel))
      unfold recursiveFunction
      rw [if_neg (by exact_mod_cast Nat.succ_ne_zero k)]
      have harg : wrap64 (((k + 1 : Nat) : Int) - 1) = ((k : Nat) : Int) := by
        rw [wrap64_eq_of_lt]
        · push_cast
          ring
        · push_cast
          omega
        · push_cast
          have : (k : Int) < 2 ^ 63 := by exact_mod_cast Nat.lt_of_succ_lt hm
          omega
      rw [harg, ih (Nat.lt_of_succ_lt hm) f (Nat.lt_of_succ_lt_succ hfuel)]
      have hfact : ((Nat.factorial (k + 1) : Nat) : Int)
          = ((k + 1 : Nat) : Int) * ((Nat.factorial k : Nat) : Int) := by
        rw [Nat.factorial_succ]
        push_cast
        ring
      show some (wrap64 (((k + 1 : Nat) : Int) * wrap64 ((Nat.factorial k : Nat) : Int)))
          = some (wrap64 ((Nat.factorial (k + 1) : Nat) : Int))
      rw [wrap64_mul_wrap64, hfact]

/-- With fuel at most the argument, the countdown from a nonnegative
argument cannot reach the base case. -/
theorem recursiveFunction_none_of_small_fuel :
    ∀ (fuel : Nat) (m : Int), 0 ≤ m → (fuel : Int) ≤ m → m < 2 ^ 63 →
      recursiveFunction fuel m = none := by
  intro fuel
  induction fuel with
  | zero => intro m _ _ _; rfl
  | succ f ihf =>
      intro m hm hfuel hub
      have hne : m ≠ 0 := by
        intro h
        rw [h] at hfuel
        push_cast at hfuel
        omega
      unfold recursiveFunction
      rw [if_neg hne]
      have harg : wrap64 (m - 1) = m - 1 := by
        rw [wrap64_eq_of_lt] <;> omega
      rw [harg, ihf (m - 1) (by push_cast at hfuel ⊢; omega)
        (by push_cast at hfuel ⊢; omega) (by omega)]

/-- Within any `2^63` recursive calls, a negative int64 argument never
reaches the base case: the countdown stays negative until it passes
`-2^63` and wraps to `2^63 - 1`, after which the remaining fuel is too
small to count down to zero. -/
theorem recursiveFunction_negative_no_base :
    ∀ (fuel : Nat), fuel ≤ 2 ^ 63 → ∀ (n : Int), -2 ^ 63 ≤ n → n < 0 →
      recursiveFunction fuel n = none := by
  intro fuel
  induction fuel with
  | zero => intro _ n _ _; rfl
  | succ f ihf =>
      intro hfuel n hlb hneg
      unfold recursiveFunction
      rw [if_neg (by omega)]
      by_cases hmin : n = -2 ^ 63
      · have harg : wrap64 (n - 1) = 2 ^ 63 - 1 := by
          subst hmin
          unfold wrap64
          omega
        rw [harg, recursiveFunction_none_of_small_fuel f (2 ^ 63 - 1) (by norm_num)
          (by push_cast; omega) (by norm_num)]
      · have harg : wrap64 (n - 1) = n - 1 := by
          rw [wrap64_eq_of_lt] <;> omega
        rw [harg, ihf (by omega) (n - 1) (by omega) (by omega)]

/-- C8 counterexample: on 64-bit Go ints the product wraps, so
`recursiveFunction(21)` returns `-4249290049419214848`, not `21!`
(`51090942171709440000`). -/
theorem recursiveFunction_factorial_counterexample :
    recursiveFunction 22 ((21 : Nat) : Int) = some (-4249290049419214848) ∧
      ((Nat.factorial 21 : Nat) : Int) = 51090942171709440000 ∧
      recursiveFunction 22 ((21 : Nat) : Int) ≠ some ((Nat.factorial 21 : Nat) : Int) := by
  have hfact : Nat.factorial 21 = 51090942171709440000 := by decide
  have hcast : ((Nat.factorial 21 : Nat) : Int) = 51090942171709440000 := by
    rw [hfact]
    push_cast
  have h1 := recursiveFunction_eq_wrapped_factorial 21 (by norm_num) 22 (by norm_num)
  have hwrap : wrap64 ((Nat.factorial 21 : Nat) : Int) = -4249290049419214848 := by
    rw [hcast]
    unfold wrap64
    omega
  rw [hwrap] at h1
  refine ⟨h1, hcast, ?_⟩
  intro h
  rw [h1, hcast] at h
  exact absurd (Option.some.inj h) (by norm_num)

/-- C8 amended: for `0 ≤ n ≤ 20` (every case where `n!` fits in int64)
`recursiveFunction` terminates with exactly `n!`; for all `0 ≤ n < 2^63`
it terminates with `n!` wrapped to int64; and for `-2^63 ≤ n < 0` the
recursion does not reach the base case within any `2^63` calls (on real
hardware it dies by stack overflow long before that). -/
theorem recursiveFunction_contract (m : Nat) (fuel : Nat)
    (hm : m < 2 ^ 63) (hfuel : m < fuel) :
    recursiveFunction fuel (m : Int) = some (wrap64 (Nat.factorial m)) ∧
      (m ≤ 20 → recursiveFunction fuel (m : Int) = some ((Nat.factorial m : Nat) : Int)) ∧
      (∀ (f : Nat), f ≤ 2 ^ 63 → ∀ (n : Int), -2 ^ 63 ≤ n → n < 0 →
        recursiveFunction f n = none) := by
  refine ⟨recursiveFunction_eq_wrapped_factorial m hm fuel hfuel, ?_,
    recursiveFunction_negative_no_base⟩
  intro h20
  rw [recursiveFunction_eq_wrapped_factorial m hm fuel hfuel]
  have hnn : (0 : Int) ≤ ((Nat.factorial m : Nat) : Int) := Int.natCast_nonneg _
  have hle : Nat.factorial m ≤ Nat.factorial 20 := Nat.factorial_le h20
  have h1 : ((Nat.factorial m : Nat) : Int) ≤ ((Nat.factorial 20 : Nat) : Int) := by
    exact_mod_cast hle
  have h2 : ((Nat.factorial 20 : Nat) : Int) < 2 ^ 63 := by
    rw [show Nat.factorial 20 = 2432902008176640000 from by decide]
    push_cast
  rw [wrap64_eq_of_lt (by omega) (by omega)]

/-- Witness for C8's amended theorem: `recursiveFunction(5) = 120 = 5!`. -/
theorem recursiveFunction_contract_witness :
    recursiveFunction 6 ((5 : Nat) : Int) = some ((Nat.factorial 5 : Nat) : Int) :=
  (recursiveFunction_contract 5 6 (by norm_num) (by norm_num)).2.1 (by norm_num)

/-! ## Claim C9: the two error-returning functions

Embedded from the source:

```go
func functionWithDefaultError(arg int) (int, error) {
    if arg == 13 {
        return -1, errors.New("unlucky number detected")
    }
    return arg + 1, nil
}

func functionWithCustomError(arg int) (int, error) {
    if arg == 13 {
        return -1, &customError{arg, "just can't do it bro"}
    }
    return arg + 2, nil
}
```

Go's `error` interface value is `nil` or a concrete error; the two
concrete errors appearing here are an `errors.New` value and a
`*customError` (whose fields are `arg` and `prob`). -/

inductive GoErr where
  | errorsNew (msg : String)
  | customError (arg : Int) (prob : String)
  deriving DecidableEq, Repr

def functionWithDefaultError (arg : Int) : Int × Option GoErr :=
  if arg = 13 then (-1, some (.errorsNew "unlucky number detected"))
  else (wrap64 (arg + 1), none)

def functionWithCustomError (arg : Int) : Int × Option GoErr :=
  if arg = 13 then (-1, some (.customError arg "just can't do it bro"))
  else (wrap64 (arg + 2), none)

/-- C9: each function returns a non-nil error exactly when `arg == 13`
(first return `-1`, and the custom error carries `arg` itself); otherwise
it returns `arg + 1` (resp. `arg + 2`) under Go's wrapping int64
addition — which equals the mathematical `arg + 1` (resp. `arg + 2`)
whenever that sum stays in int64 range — with a nil error. -/
theorem error_functions_contract (arg : Int) :
    ((functionWithDefaultError arg).2 ≠ none ↔ arg = 13) ∧
      (arg = 13 →
        functionWithDefaultError arg = (-1, some (.errorsNew "unlucky number detected"))) ∧
      (arg ≠ 13 → functionWithDefaultError arg = (wrap64 (arg + 1), none)) ∧
      ((functionWithCustomError arg).2 ≠ none ↔ arg = 13) ∧
      (arg = 13 →
        functionWithCustomError arg = (-1, some (.customError arg "just can't do it bro"))) ∧
      (arg ≠ 13 → functionWithCustomError arg = (wrap64 (arg + 2), none)) ∧
      (-2 ^ 63 ≤ arg → arg + 1 < 2 ^ 63 → arg ≠ 13 →
        (functionWithDefaultError arg).1 = arg + 1) ∧
      (-2 ^ 63 ≤ arg → arg + 2 < 2 ^ 63 → arg ≠ 13 →
        (functionWithCustomError arg).1 = arg + 2) := by
  refine ⟨?_, ?_, ?_, ?_, ?_, ?_, ?_, ?_⟩
  · by_cases h : arg = 13 <;> simp [functionWithDefaultError, h]
  · intro h
    simp [functionWithDefaultError, h]
  · intro h
    simp [functionWithDefaultError, h]
  · by_cases h : arg = 13 <;> simp [functionWithCustomError, h]
  · intro h
    simp [functionWithCustomError, h]
  · intro h
    simp [functionWithCustomError, h]
  · intro h1 h2 h3
    simp only [functionWithDefaultError, if_neg h3]
    exact wrap64_eq_of_lt (by omega) h2
  · intro h1 h2 h3
    simp only [functionWithCustomError, if_neg h3]
    exact wrap64_eq_of_lt (by omega) h2

/-- Witness for C9 on concrete inputs 12, 13 and 1. -/
theorem error_functions_contract_witness :
    functionWithDefaultError 12 = (13, none) ∧
      functionWithDefaultError 13 = (-1, some (.errorsNew "unlucky number detected")) ∧
      functionWithCustomError 13 = (-1, some (.customError 13 "just can't do it bro")) ∧
      (functionWithCustomError 1).1 = 3 := by
  refine ⟨?_, (error_functions_contract 13).2.1 rfl,
    (error_functions_contract 13).2.2.2.2.1 rfl, ?_⟩
  · have h := (error_functions_contract 12).2.2.1 (by norm_num)
    rw [wrap64_eq_of_lt (by norm_num) (by norm_num)] at h
    exact h
  · have h := (error_functions_contract 1).2.2.2.2.2.2.2
      (by norm_num) (by norm_num) (by norm_num)
    simpa using h

/-! ## Claim C10: closures from `closureReturner`

Embedded from the source:

```go
func closureReturner() func() int {
    i := 0
    return func() int {
        i++
        return i
    }
}
```

Each call to `closureReturner` allocates a fresh captured variable `i`
initialised to 0; the returned closure increments and returns its own
`i`.  The captured variables live in an explicit heap (a list of int64
cells); a closure value is the index of its cell, and `closureReturner`
appends a fresh cell. -/

abbrev ClosureHeap := List Int

def closureReturner (w : ClosureHeap) : Nat × ClosureHeap := (w.length, w ++ [0])

/-- Invoking a closure runs `i++; return i` on its own captured cell,
with Go's wrapping int64 increment. -/
def invokeClosure (w : ClosureHeap) (h : Nat) : Int × ClosureHeap :=
  (wrap64 (w.getD h 0 + 1), w.set h (wrap64 (w.getD h 0 + 1)))

/-- The heap after `k` invocations of closure `h`. -/
def invokeTimes (w : ClosureHeap) (h : Nat) : Nat → ClosureHeap
  | 0 => w
  | k + 1 => (invokeClosure (invokeTimes w h k) h).2

/-- The value returned by the `k`-th invocation (`k ≥ 1`) of a closure
freshly produced by `closureReturner` on heap `w0`. -/
def nthInvocationValue (w0 : ClosureHeap) (k : Nat) : Int :=
  (invokeClosure (invokeTimes (closureReturner w0).2 (closureReturner w0).1 (k - 1))
    (closureReturner w0).1).1

/-- The four values `closureTester` prints: three invocations of
`nextInt := closureReturner()`, then one invocation of a second closure
`differentInts := closureReturner()` (source comments: 1, 2, 3, then 1). -/
def closureTesterOutputs : List Int :=
  let r1 := closureReturner []
  let i1 := invokeClosure r1.2 r1.1
  let i2 := invokeClosure i1.2 r1.1
  let i3 := invokeClosure i2.2 r1.1
  let r2 := closureReturner i3.2
  let i4 := invokeClosure r2.2 r2.1
  [i1.1, i2.1, i3.1, i4.1]

theorem invokeTimes_length (w : ClosureHeap) (h : Nat) (k : Nat) :
    (invokeTimes w h k).length = w.length := by
  induction k with
  | zero => rfl
  | succ k ih => simp [invokeTimes, invokeClosure, ih]

theorem getD_set_self (l : ClosureHeap) (i : Nat) (v : Int) (hlt : i < l.length) :
    (l.set i v).getD i 0 = v := by
  simp [List.getD_eq_getElem?_getD, List.getElem?_set_self', hlt]

/-- The fresh counter holds `wrap64 k` after `k` invocations. -/
theorem counter_after (w0 : ClosureHeap) (k : Nat) :
    (invokeTimes (w0 ++ [(0 : Int)]) w0.length k).getD w0.length 0 = wrap64 (k : Int) := by
  induction k with
  | zero =>
      show (w0 ++ [(0 : Int)]).getD w0.length 0 = wrap64 ((0 : Nat) : Int)
      rw [show wrap64 ((0 : Nat) : Int) = 0 from by unfold wrap64; omega]
      simp [List.getD_eq_getElem?_getD]
  | succ k ih =>
      have hlt : w0.length < (invokeTimes (w0 ++ [(0 : Int)]) w0.length k).length := by
        rw [invokeTimes_length]
        simp
      show (invokeClosure (invokeTimes (w0 ++ [(0 : Int)]) w0.length k)
          w0.length).2.getD w0.length 0 = _
      unfold invokeClosure
      rw [ih, getD_set_self _ _ _ hlt, wrap64_add_wrap64]
      rw [show ((k : Nat) : Int) + 1 = ((k + 1 : Nat) : Int) from by omega]

/-- Closed form for the `k`-th invocation's return value. -/
theorem nthInvocationValue_eq (w0 : ClosureHeap) (k : Nat) (hk : 1 ≤ k) :
    nthInvocationValue w0 k = wrap64 (k : Int) := by
  unfold nthInvocationValue invokeClosure
  show wrap64 ((invokeTimes (w0 ++ [(0 : Int)]) w0.length (k - 1)).getD w0.length 0 + 1) = _
  rw [counter_after, wrap64_add_wrap64]
  rw [show ((k - 1 : Nat) : Int) + 1 = ((k : Nat) : Int) from by omega]

/-- C10 counterexample: the captured `i` is a 64-bit int, so the
`2^63`-rd invocation wraps and returns `-2^63`, not `2^63`. -/
theorem closure_counter_wrap_counterexample :
    nthInvocationValue [] (2 ^ 63) = -(2 ^ 63) ∧
      ((-(2 ^ 63) : Int) ≠ ((2 ^ 63 : Nat) : Int)) := by
  constructor
  · rw [nthInvocationValue_eq [] (2 ^ 63) (by norm_num)]
    unfold wrap64
    omega
  · omega

/-- C10 amended: a closure fresh from `closureReturner` starts its private
counter at 0 and its `k`-th invocation returns exactly `k` for every
`1 ≤ k < 2^63` (at `k = 2^63` the int64 counter wraps); invoking a closure
never changes any other closure's captured cell; and the `closureTester`
scenario returns 1, 2, 3 from the first closure and then 1 from a second,
independent closure, exactly as the source comments record. -/
theorem closureReturner_contract (w0 : ClosureHeap) (k : Nat)
    (h1 : 1 ≤ k) (h2 : ((k : Nat) : Int) < 2 ^ 63) :
    nthInvocationValue w0 k = ((k : Nat) : Int) ∧
      (∀ (w : ClosureHeap) (a b : Nat), a ≠ b →
        (invokeClosure w a).2.getD b 0 = w.getD b 0) ∧
      closureTesterOutputs = [1, 2, 3, 1] := by
  refine ⟨?_, ?_, ?_⟩
  · rw [nthInvocationValue_eq w0 k h1]
    exact wrap64_eq_of_lt (by omega) h2
  · intro w a b hab
    unfold invokeClosure
    simp [List.getD_eq_getElem?_getD, List.getElem?_set_ne hab]
  · decide

/-- Witness for C10's amended theorem: the third invocation of a fresh
closure returns 3, and the `closureTester` sequence is 1, 2, 3, 1. -/
theorem closureReturner_contract_witness :
    nthInvocationValue [] 3 = ((3 : Nat) : Int) ∧
      closureTesterOutputs = [1, 2, 3, 1] :=
  ⟨(closureReturner_contract [] 3 (by norm_num) (by norm_num)).1,
   (closureReturner_contract [] 3 (by norm_num) (by norm_num)).2.2⟩

end HelloGo
